import Mathlib

/-!
Verification of the zero-copy transfer engine in
`src/src/tokio/os/copy_file_range.rs`: descriptor validation, the two
offset-tracking disciplines, the syscall-availability probe, and the
loop-until-complete transfer drivers built on single-step primitives.

The embedding is shallow: syscall outcomes are supplied by an explicit
environment (a finite list of per-step results), machine integers are
`Nat`/`Int`, and kernel-side descriptor state (the file position) is modelled
as an explicit field carried alongside each handle.
-/

namespace ZeroCopy

/-! ## Libc constants (Linux values used by the crate) -/

def O_ACCMODE : Nat := 3
def O_RDONLY : Nat := 0
def O_WRONLY : Nat := 1
def O_RDWR : Nat := 2
def O_APPEND : Nat := 1024
def S_IFMT : Nat := 61440
def S_IFREG : Nat := 32768
def EBADF : Int := 9

/-! ## Role and validation (lines 249-327 of copy_file_range.rs) -/

/-- Capability tag for a descriptor: `Role` in the source (lines 269-275). -/
inductive Role
  | Readable
  | Writable
deriving DecidableEq, Repr

/-- Validation failures raised by `validate_raw_fd` and its helpers. The
source raises `io::Error` values with distinct messages; we name the three
cases as the spec does. -/
inductive ValidationError
  | NotRegularFile
  | WrongAccessMode
  | AppendNotAllowed
deriving DecidableEq, Repr

/-- Mirror of `Role::allowed_modes` (lines 278-285). -/
def Role.allowed_modes : Role → List Nat
  | .Readable => [O_RDONLY, O_RDWR]
  | .Writable => [O_WRONLY, O_RDWR]

/-- Mirror of `Role::check_append` (lines 287-297): only a Writable role
rejects the append flag. -/
def Role.check_append : Role → Nat → Except ValidationError Unit
  | .Writable, flags =>
      if flags &&& O_APPEND ≠ 0 then .error .AppendNotAllowed else .ok ()
  | .Readable, _ => .ok ()

/-- Mirror of `Role::validate_flags` (lines 308-317): extract the access-mode
bits, require membership in the role's allowed set, then the append check. -/
def Role.validate_flags (role : Role) (flags : Nat) : Except ValidationError Unit :=
  let access_mode := flags &&& O_ACCMODE
  if ¬ (role.allowed_modes).contains access_mode then .error .WrongAccessMode
  else role.check_append flags

/-- Mirror of `check_regular_file` (lines 249-263) on the `st_mode` returned
by a successful `fstat`. -/
def check_regular_file (st_mode : Nat) : Except ValidationError Unit :=
  if st_mode &&& S_IFMT = S_IFREG then .ok () else .error .NotRegularFile

/-- Mirror of `validate_raw_fd` (lines 320-327), with the results of the
descriptor metadata query (`st_mode`) and the status-flags query (`flags`)
made explicit arguments; both kernel queries are assumed to succeed. -/
def validate_raw_fd (fd : Int) (st_mode flags : Nat) (role : Role) :
    Except ValidationError Int := do
  check_regular_file st_mode
  role.validate_flags flags
  pure fd

/-! ## Offset strategies (lines 46-131) -/

/-- One endpoint of a transfer, together with the kernel-side file position of
its descriptor. `mutateInnerOffset` models `MutateInnerOffset` (lines 56-83):
`as_args` yields a null offset pointer, so the kernel reads and advances the
descriptor's own position (`filePos`). `fromGivenOffset` models
`FromGivenOffset` (lines 85-122): `as_args` yields a pointer to the stored
`offset` counter, which the kernel updates in place, leaving `filePos`
untouched. `filePos` is kernel state, not a field of the Rust structs. -/
inductive CfrHandle
  | mutateInnerOffset (role : Role) (filePos : Int)
  | fromGivenOffset (role : Role) (offset : Int) (filePos : Int)
deriving DecidableEq, Repr

/-- Mirror of the `role()` trait method (lines 74-76, 110-112). -/
def CfrHandle.role : CfrHandle → Role
  | .mutateInnerOffset r _ => r
  | .fromGivenOffset r _ _ => r

/-- The `off` component of `RawArgs` produced by `as_args`: `None` for
`MutateInnerOffset` (line 80), `Some offset` for `FromGivenOffset`
(line 119). -/
def CfrHandle.offArg : CfrHandle → Option Int
  | .mutateInnerOffset _ _ => none
  | .fromGivenOffset _ o _ => some o

/-- Kernel effect, on one endpoint, of a completed syscall that moved `k`
bytes: with a null offset pointer the descriptor's own position advances;
with an explicit pointer the pointed-to counter is advanced in place and the
descriptor position is untouched. -/
def CfrHandle.applyStep : CfrHandle → Nat → CfrHandle
  | .mutateInnerOffset r p, k => .mutateInnerOffset r (p + k)
  | .fromGivenOffset r o p, k => .fromGivenOffset r (o + k) p

/-- Mirror of `MutateInnerOffset::new` (lines 62-66): validate, then take
ownership of the descriptor. `filePos` is the descriptor's current kernel
file position. -/
def MutateInnerOffset.new (fd : Int) (st_mode flags : Nat) (role : Role)
    (filePos : Int) : Except ValidationError CfrHandle :=
  (validate_raw_fd fd st_mode flags role).map fun _ =>
    .mutateInnerOffset role filePos

/-- Mirror of `FromGivenOffset::new` (lines 91-101): validate, then store the
initial counter `init as i64`, where `init` is a `u32` (modelled as
`init % 2 ^ 32` widened to `Int`). -/
def FromGivenOffset.new (fd : Int) (st_mode flags : Nat) (role : Role)
    (init : Nat) (filePos : Int) : Except ValidationError CfrHandle :=
  (validate_raw_fd fd st_mode flags role).map fun _ =>
    .fromGivenOffset role ((init % 2 ^ 32 : Nat) : Int) filePos

/-! ## Single-step primitives and looping drivers (lines 133-247) -/

/-- Outcome of one dispatched syscall, as decided by the environment: either
a nonnegative byte count (`ssize_t` result after `cvt`) or an errno. -/
inductive StepResult
  | ok (n : Nat)
  | err (errno : Int)
deriving DecidableEq, Repr

/-- Result of one single-step primitive: byte count, propagated errno, or a
failed runtime assertion. -/
inductive IterResult
  | ok (n : Nat)
  | err (errno : Int)
  | panic
deriving DecidableEq, Repr

/-- Result of one full-length driver call. `pending` means the finite
environment list was exhausted while the loop would have continued; it is not
a behaviour of the code, only of the finite model. -/
inductive LoopResult
  | ok (n : Nat)
  | err (errno : Int)
  | panic
  | pending
deriving DecidableEq, Repr

/-- Mirror of `iter_copy_file_range` (lines 133-165): assert the source role
is Readable and the destination role Writable (in that order, before the
syscall is dispatched), then perform one `copy_file_range` syscall whose
outcome `e` is supplied by the environment; on success both endpoints' offset
state advances by the bytes moved. -/
def iter_copy_file_range (e : StepResult) (src dst : CfrHandle) :
    IterResult × CfrHandle × CfrHandle :=
  if src.role ≠ Role.Readable then (.panic, src, dst)
  else if dst.role ≠ Role.Writable then (.panic, src, dst)
  else
    match e with
    | .err er => (.err er, src, dst)
    | .ok k => (.ok k, src.applyStep k, dst.applyStep k)

/-- Mirror of `iter_splice_from_pipe` (lines 167-179): assert the destination
role is Writable, then splice from the pipe into the destination. -/
def iter_splice_from_pipe (e : StepResult) (dst : CfrHandle) :
    IterResult × CfrHandle :=
  if dst.role ≠ Role.Writable then (.panic, dst)
  else
    match e with
    | .err er => (.err er, dst)
    | .ok k => (.ok k, dst.applyStep k)

/-- Mirror of `iter_splice_to_pipe` (lines 199-211): assert the source role
is Readable, then splice from the source into the pipe. -/
def iter_splice_to_pipe (e : StepResult) (src : CfrHandle) :
    IterResult × CfrHandle :=
  if src.role ≠ Role.Readable then (.panic, src)
  else
    match e with
    | .err er => (.err er, src)
    | .ok k => (.ok k, src.applyStep k)

/-- The shared while-loop of the three full-length drivers (lines 186-196,
220-227, 238-245): while `remaining > 0`, invoke the single-step primitive
with the remaining length; `?` propagates an error at once; `assert!` that
the step moved at most `remaining`; a zero step returns
`Ok(full_len - remaining)`; otherwise subtract and continue; when remaining
reaches zero return `Ok(full_len)`. Returns the loop outcome, the final
endpoint state, and the trace of `len` arguments passed to the single-step
primitive. -/
def drive {σ : Type} (iter : StepResult → σ → IterResult × σ) (full_len : Nat) :
    List StepResult → Nat → σ → LoopResult × σ × List Nat
  | [], remaining, st =>
    if remaining = 0 then (.ok full_len, st, []) else (.pending, st, [])
  | e :: rest, remaining, st =>
    if remaining = 0 then (.ok full_len, st, [])
    else
      match iter e st with
      | (.panic, st') => (.panic, st', [remaining])
      | (.err er, st') => (.err er, st', [remaining])
      | (.ok cur, st') =>
        if remaining < cur then (.panic, st', [remaining])
        else if cur = 0 then (.ok (full_len - remaining), st', [remaining])
        else
          let r := drive iter full_len rest (remaining - cur) st'
          (r.1, r.2.1, remaining :: r.2.2)

/-- Mirror of the full-length driver `copy_file_range` (lines 231-247). -/
def copy_file_range (steps : List StepResult) (full_len : Nat)
    (src dst : CfrHandle) : LoopResult × (CfrHandle × CfrHandle) × List Nat :=
  drive (fun e p => iter_copy_file_range e p.1 p.2) full_len steps full_len (src, dst)

/-- Mirror of the full-length driver `splice_from_pipe` (lines 181-197). -/
def splice_from_pipe (steps : List StepResult) (full_len : Nat)
    (dst : CfrHandle) : LoopResult × CfrHandle × List Nat :=
  drive iter_splice_from_pipe full_len steps full_len dst

/-- Mirror of the full-length driver `splice_to_pipe` (lines 213-229). -/
def splice_to_pipe (steps : List StepResult) (full_len : Nat)
    (src : CfrHandle) : LoopResult × CfrHandle × List Nat :=
  drive iter_splice_to_pipe full_len steps full_len src

/-- Sequence of `len` arguments the loop passes to its single-step primitive
when the environment answers with the byte counts `cs`, starting from
remaining length `r`. -/
def lensOf (r : Nat) : List Nat → List Nat
  | [] => []
  | c :: cs => r :: lensOf (r - c) cs

/-! ## Availability probe (lines 18-44) -/

/-- Availability of the `copy_file_range` syscall. Modelled from the spec:
the enum `SyscallAvailability` is declared in a sibling module that is not
part of the provided sources; its three variants are fixed by their uses at
lines 37-41 and by the spec's probe contract. -/
inductive SyscallAvailability
  | Available
  | FailedProbe (errno : Int)
  | NotOnThisPlatform
deriving DecidableEq, Repr

/-- Modelled from the spec: `INVALID_FD`, the sentinel invalid descriptor
imported from a sibling module that is not part of the provided sources. Its
concrete value is irrelevant to the probe logic; it only has to be an invalid
descriptor number. -/
def INVALID_FD : Int := -1

/-- Arguments of one raw `copy_file_range` syscall as issued by the probe:
input and output descriptor numbers, requested length and flags (the offset
pointers are both null, line 22 and 24). -/
structure CfrCall where
  fd_in : Int
  fd_out : Int
  len : Nat
  flags : Nat
deriving DecidableEq, Repr

/-- Mirror of `invalid_copy_file_range` (lines 18-31): issue one
`copy_file_range` with both descriptors set to `INVALID_FD`, length 1 and
flags 0, and return the resulting errno. `kernelErrno` models the kernel's
response to a raw call. -/
def invalid_copy_file_range (kernelErrno : CfrCall → Int) : Int :=
  kernelErrno ⟨INVALID_FD, INVALID_FD, 1, 0⟩

/-- Mirror of the `HAS_COPY_FILE_RANGE` probe body (lines 33-44): on Linux,
probe with the sentinel call and classify the errno (`EBADF` means the call
is implemented, anything else is a failed probe carrying that errno); on any
other platform, report `NotOnThisPlatform` without consulting the kernel. -/
def has_copy_file_range (isLinux : Bool) (kernelErrno : CfrCall → Int) :
    SyscallAvailability :=
  if isLinux then
    match invalid_copy_file_range kernelErrno with
    | e => if e = EBADF then .Available else .FailedProbe e
  else .NotOnThisPlatform

/-! ## Helper lemmas about handles and single-step primitives -/

theorem CfrHandle.applyStep_role (h : CfrHandle) (k : Nat) :
    (h.applyStep k).role = h.role := by
  cases h <;> rfl

theorem CfrHandle.applyStep_zero (h : CfrHandle) : h.applyStep 0 = h := by
  cases h <;> simp [applyStep]

theorem CfrHandle.applyStep_add (h : CfrHandle) (a b : Nat) :
    (h.applyStep a).applyStep b = h.applyStep (a + b) := by
  cases h <;> simp [applyStep, Nat.cast_add, add_assoc]

theorem iter_cfr_ok (k : Nat) (src dst : CfrHandle)
    (hs : src.role = Role.Readable) (hd : dst.role = Role.Writable) :
    iter_copy_file_range (.ok k) src dst = (.ok k, src.applyStep k, dst.applyStep k) := by
  simp [iter_copy_file_range, hs, hd]

theorem iter_cfr_err (er : Int) (src dst : CfrHandle)
    (hs : src.role = Role.Readable) (hd : dst.role = Role.Writable) :
    iter_copy_file_range (.err er) src dst = (.err er, src, dst) := by
  simp [iter_copy_file_range, hs, hd]

theorem iter_sfp_ok (k : Nat) (dst : CfrHandle) (hd : dst.role = Role.Writable) :
    iter_splice_from_pipe (.ok k) dst = (.ok k, dst.applyStep k) := by
  simp [iter_splice_from_pipe, hd]

theorem iter_sfp_err (er : Int) (dst : CfrHandle) (hd : dst.role = Role.Writable) :
    iter_splice_from_pipe (.err er) dst = (.err er, dst) := by
  simp [iter_splice_from_pipe, hd]

theorem iter_stp_ok (k : Nat) (src : CfrHandle) (hs : src.role = Role.Readable) :
    iter_splice_to_pipe (.ok k) src = (.ok k, src.applyStep k) := by
  simp [iter_splice_to_pipe, hs]

theorem iter_stp_err (er : Int) (src : CfrHandle) (hs : src.role = Role.Readable) :
    iter_splice_to_pipe (.err er) src = (.err er, src) := by
  simp [iter_splice_to_pipe, hs]

/-! ## Generic lemmas about the driver loop -/

section DriveLemmas

variable {σ : Type} {iter : StepResult → σ → IterResult × σ}
variable {A : σ → Nat → σ} {inv : σ → Prop}

theorem drive_full
    (h_ok : ∀ k st, inv st → iter (.ok k) st = (.ok k, A st k))
    (h_inv : ∀ st k, inv st → inv (A st k))
    (h_zero : ∀ st, A st 0 = st)
    (h_add : ∀ st a b, A (A st a) b = A st (a + b))
    (full_len : Nat) :
    ∀ (cs : List Nat), (∀ c ∈ cs, 0 < c) → ∀ (rest : List StepResult) (st : σ),
      inv st →
      drive iter full_len (cs.map StepResult.ok ++ rest) cs.sum st =
        (.ok full_len, A st cs.sum, lensOf cs.sum cs) := by
  intro cs
  induction cs with
  | nil =>
    intro _ rest st _
    cases rest <;> simp [drive, lensOf, h_zero]
  | cons c cs ih =>
    intro hpos rest st hst
    have hc : 0 < c := hpos c (by simp)
    have hsum : c + cs.sum ≠ 0 := by omega
    simp only [List.map_cons, List.sum_cons, List.cons_append, drive, hsum,
      if_false, h_ok c st hst]
    have hlt : ¬ c + cs.sum < c := by omega
    have hczero : ¬ c = 0 := by omega
    simp only [hlt, if_false, hczero]
    have hrw : c + cs.sum - c = cs.sum := by omega
    simp only [List.append_eq]
    rw [hrw, ih (fun x hx => hpos x (by simp [hx])) rest (A st c) (h_inv st c hst)]
    simp [lensOf, hrw, h_add]

theorem drive_cons_ok
    (h_ok : ∀ k st, inv st → iter (.ok k) st = (.ok k, A st k))
    (full_len : Nat) (c R : Nat) (hc : 0 < c)
    (steps : List StepResult) (st : σ) (hst : inv st) :
    drive iter full_len (StepResult.ok c :: steps) (c + R) st =
      ((drive iter full_len steps R (A st c)).1,
       (drive iter full_len steps R (A st c)).2.1,
       (c + R) :: (drive iter full_len steps R (A st c)).2.2) := by
  have hsum : c + R ≠ 0 := by omega
  have hlt : ¬ c + R < c := by omega
  have hczero : ¬ c = 0 := by omega
  have hrw : c + R - c = R := by omega
  simp only [drive, hsum, if_false, h_ok c st hst, hlt, hczero, hrw]

theorem drive_short
    (h_ok : ∀ k st, inv st → iter (.ok k) st = (.ok k, A st k))
    (h_inv : ∀ st k, inv st → inv (A st k))
    (h_add : ∀ st a b, A (A st a) b = A st (a + b))
    (full_len : Nat) :
    ∀ (cs : List Nat), (∀ c ∈ cs, 0 < c) → ∀ (d : Nat), 0 < d →
      ∀ (rest : List StepResult) (st : σ), inv st →
      drive iter full_len (cs.map StepResult.ok ++ StepResult.ok 0 :: rest)
          (cs.sum + d) st =
        (.ok (full_len - d), A st cs.sum, lensOf (cs.sum + d) cs ++ [d]) := by
  intro cs
  induction cs with
  | nil =>
    intro _ d hd rest st hst
    have hd0 : ¬ d = 0 := by omega
    have hlt : ¬ d < 0 := by omega
    simp only [List.map_nil, List.sum_nil, List.nil_append, Nat.zero_add, drive,
      hd0, if_false, h_ok 0 st hst, hlt, if_true, lensOf, List.nil_append]
  | cons c cs ih =>
    intro hpos d hd rest st hst
    have hc : 0 < c := hpos c (by simp)
    have hassoc : (c :: cs).sum + d = c + (cs.sum + d) := by simp [List.sum_cons]; omega
    rw [hassoc]
    simp only [List.map_cons, List.cons_append]
    rw [drive_cons_ok h_ok full_len c (cs.sum + d) hc _ st hst,
      ih (fun x hx => hpos x (by simp [hx])) d hd rest (A st c) (h_inv st c hst)]
    have hsub : c + (cs.sum + d) - c = cs.sum + d := by omega
    simp [lensOf, hsub, h_add, List.sum_cons, Nat.add_assoc]

theorem drive_err
    (h_ok : ∀ k st, inv st → iter (.ok k) st = (.ok k, A st k))
    (h_err : ∀ er st, inv st → iter (.err er) st = (.err er, st))
    (h_inv : ∀ st k, inv st → inv (A st k))
    (h_zero : ∀ st, A st 0 = st)
    (h_add : ∀ st a b, A (A st a) b = A st (a + b))
    (full_len : Nat) :
    ∀ (cs : List Nat), (∀ c ∈ cs, 0 < c) → ∀ (d : Nat), 0 < d → ∀ (er : Int)
      (rest : List StepResult) (st : σ), inv st →
      drive iter full_len (cs.map StepResult.ok ++ StepResult.err er :: rest)
          (cs.sum + d) st =
        (.err er, A st cs.sum, lensOf (cs.sum + d) cs ++ [d]) := by
  intro cs
  induction cs with
  | nil =>
    intro _ d hd er rest st hst
    have hd0 : ¬ d = 0 := by omega
    simp only [List.map_nil, List.sum_nil, List.nil_append, Nat.zero_add, drive,
      hd0, if_false, h_err er st hst, lensOf, List.nil_append, h_zero]
  | cons c cs ih =>
    intro hpos d hd er rest st hst
    have hc : 0 < c := hpos c (by simp)
    have hassoc : (c :: cs).sum + d = c + (cs.sum + d) := by simp [List.sum_cons]; omega
    rw [hassoc]
    simp only [List.map_cons, List.cons_append]
    rw [drive_cons_ok h_ok full_len c (cs.sum + d) hc _ st hst,
      ih (fun x hx => hpos x (by simp [hx])) d hd er rest (A st c) (h_inv st c hst)]
    have hsub : c + (cs.sum + d) - c = cs.sum + d := by omega
    simp [lensOf, hsub, h_add, List.sum_cons, Nat.add_assoc]

theorem drive_panic
    (h_ok : ∀ k st, inv st → iter (.ok k) st = (.ok k, A st k))
    (h_inv : ∀ st k, inv st → inv (A st k))
    (h_add : ∀ st a b, A (A st a) b = A st (a + b))
    (full_len : Nat) :
    ∀ (cs : List Nat), (∀ c ∈ cs, 0 < c) → ∀ (d c : Nat), 0 < d → d < c →
      ∀ (rest : List StepResult) (st : σ), inv st →
      drive iter full_len (cs.map StepResult.ok ++ StepResult.ok c :: rest)
          (cs.sum + d) st =
        (.panic, A st (cs.sum + c), lensOf (cs.sum + d) cs ++ [d]) := by
  intro cs
  induction cs with
  | nil =>
    intro _ d c hd hdc rest st hst
    have hd0 : ¬ d = 0 := by omega
    simp only [List.map_nil, List.sum_nil, List.nil_append, Nat.zero_add, drive,
      hd0, if_false, h_ok c st hst, if_pos hdc, lensOf, List.nil_append]
  | cons c0 cs ih =>
    intro hpos d c hd hdc rest st hst
    have hc0 : 0 < c0 := hpos c0 (by simp)
    have hassoc : (c0 :: cs).sum + d = c0 + (cs.sum + d) := by simp [List.sum_cons]; omega
    rw [hassoc]
    simp only [List.map_cons, List.cons_append]
    rw [drive_cons_ok h_ok full_len c0 (cs.sum + d) hc0 _ st hst,
      ih (fun x hx => hpos x (by simp [hx])) d c hd hdc rest (A st c0) (h_inv st c0 hst)]
    have hsub : c0 + (cs.sum + d) - c0 = cs.sum + d := by omega
    simp [lensOf, hsub, h_add, List.sum_cons, Nat.add_assoc]

theorem drive_no_pending (full_len : Nat) :
    ∀ (steps : List StepResult) (r : Nat) (st : σ), r ≤ steps.length →
      (drive iter full_len steps r st).1 ≠ .pending := by
  intro steps
  induction steps with
  | nil =>
    intro r st hr
    have : r = 0 := by simpa using hr
    subst this
    simp [drive]
  | cons e rest ih =>
    intro r st hr
    by_cases hr0 : r = 0
    · subst hr0; simp [drive]
    · rcases hit : iter e st with ⟨ir, st₂⟩
      simp only [drive, hr0, if_false, hit]
      cases ir with
      | panic => simp
      | err er => simp
      | ok cur =>
        by_cases hlt : r < cur
        · simp [hlt]
        · by_cases hc0 : cur = 0
          · simp [hlt, hc0]
          · simp only [hlt, if_false, hc0]
            exact ih (r - cur) st₂ (by simp at hr; omega)

theorem drive_state
    (h_st : ∀ e st, ∃ k, (iter e st).2 = A st k)
    (h_zero : ∀ st, A st 0 = st)
    (h_add : ∀ st a b, A (A st a) b = A st (a + b))
    (full_len : Nat) :
    ∀ (steps : List StepResult) (r : Nat) (st : σ),
      ∃ m, (drive iter full_len steps r st).2.1 = A st m := by
  intro steps
  induction steps with
  | nil =>
    intro r st
    refine ⟨0, ?_⟩
    by_cases hr0 : r = 0 <;> simp [drive, hr0, h_zero]
  | cons e rest ih =>
    intro r st
    by_cases hr0 : r = 0
    · exact ⟨0, by simp [drive, hr0, h_zero]⟩
    · obtain ⟨k, hk⟩ := h_st e st
      rcases hit : iter e st with ⟨ir, st₂⟩
      have hst₂ : st₂ = A st k := by rw [hit] at hk; exact hk
      subst hst₂
      simp only [drive, hr0, if_false, hit]
      cases ir with
      | panic => exact ⟨k, rfl⟩
      | err er => exact ⟨k, rfl⟩
      | ok cur =>
        by_cases hlt : r < cur
        · exact ⟨k, by simp [hlt]⟩
        · by_cases hc0 : cur = 0
          · exact ⟨k, by simp [hlt, hc0]⟩
          · obtain ⟨m, hm⟩ := ih (r - cur) (A st k)
            exact ⟨k + m, by simp [hlt, hc0, hm, h_add]⟩

theorem drive_first_panic (full_len : Nat) (hlen : 0 < full_len)
    (e : StepResult) (rest : List StepResult) (st st' : σ)
    (h : iter e st = (.panic, st')) :
    drive iter full_len (e :: rest) full_len st = (.panic, st', [full_len]) := by
  have h0 : ¬ full_len = 0 := by omega
  simp only [drive, h0, if_false, h]

theorem drive_ok_state
    (h_ok : ∀ k st, inv st → iter (.ok k) st = (.ok k, A st k))
    (h_err : ∀ er st, inv st → iter (.err er) st = (.err er, st))
    (h_inv : ∀ st k, inv st → inv (A st k))
    (h_zero : ∀ st, A st 0 = st)
    (h_add : ∀ st a b, A (A st a) b = A st (a + b))
    (full_len : Nat) :
    ∀ (steps : List StepResult) (r : Nat) (st : σ), inv st → r ≤ full_len →
      ∀ K, (drive iter full_len steps r st).1 = .ok K →
      ∃ m, K = (full_len - r) + m ∧ m ≤ r ∧
        (drive iter full_len steps r st).2.1 = A st m := by
  intro steps
  induction steps with
  | nil =>
    intro r st _ hr K hK
    by_cases hr0 : r = 0
    · subst hr0
      simp [drive] at hK ⊢
      exact ⟨0, by omega, by omega, by simp [h_zero]⟩
    · simp [drive, hr0] at hK
  | cons e rest ih =>
    intro r st hst hr K hK
    by_cases hr0 : r = 0
    · subst hr0
      simp [drive] at hK ⊢
      exact ⟨0, by omega, by omega, by simp [h_zero]⟩
    · cases e with
      | err er =>
        rw [show drive iter full_len (StepResult.err er :: rest) r st =
            (.err er, st, [r]) by
          simp only [drive, hr0, if_false, h_err er st hst]] at hK
        simp at hK
      | ok c =>
        simp only [drive, hr0, if_false, h_ok c st hst] at hK ⊢
        by_cases hlt : r < c
        · simp [hlt] at hK
        · by_cases hc0 : c = 0
          · simp [hlt, hc0] at hK ⊢
            exact ⟨0, by omega, by omega, rfl⟩
          · simp only [hlt, if_false, hc0] at hK ⊢
            obtain ⟨m, hm1, hm2, hm3⟩ :=
              ih (r - c) (A st c) (h_inv st c hst) (by omega) K hK
            exact ⟨c + m, by omega, by omega, by simp [hm3, h_add]⟩

end DriveLemmas

/-! ## Instance bundles for the three drivers -/

theorem cfr2_ok (k : Nat) (st : CfrHandle × CfrHandle)
    (hst : st.1.role = Role.Readable ∧ st.2.role = Role.Writable) :
    iter_copy_file_range (.ok k) st.1 st.2 =
      (.ok k, (st.1.applyStep k, st.2.applyStep k)) :=
  iter_cfr_ok k st.1 st.2 hst.1 hst.2

theorem cfr2_err (er : Int) (st : CfrHandle × CfrHandle)
    (hst : st.1.role = Role.Readable ∧ st.2.role = Role.Writable) :
    iter_copy_file_range (.err er) st.1 st.2 = (.err er, st) :=
  iter_cfr_err er st.1 st.2 hst.1 hst.2

theorem pair_inv (st : CfrHandle × CfrHandle) (k : Nat)
    (hst : st.1.role = Role.Readable ∧ st.2.role = Role.Writable) :
    (st.1.applyStep k).role = Role.Readable ∧
      (st.2.applyStep k).role = Role.Writable := by
  simp [CfrHandle.applyStep_role, hst.1, hst.2]

theorem pair_zero (st : CfrHandle × CfrHandle) :
    ((st.1.applyStep 0, st.2.applyStep 0) : CfrHandle × CfrHandle) = st := by
  simp [CfrHandle.applyStep_zero]

theorem pair_add (st : CfrHandle × CfrHandle) (a b : Nat) :
    (((st.1.applyStep a).applyStep b, (st.2.applyStep a).applyStep b) :
        CfrHandle × CfrHandle) =
      (st.1.applyStep (a + b), st.2.applyStep (a + b)) := by
  simp [CfrHandle.applyStep_add]

theorem iter_cfr_state (e : StepResult) (src dst : CfrHandle) :
    ∃ k, (iter_copy_file_range e src dst).2 =
      ((src.applyStep k, dst.applyStep k) : CfrHandle × CfrHandle) := by
  by_cases hs : src.role = Role.Readable
  · by_cases hd : dst.role = Role.Writable
    · cases e with
      | err er =>
        exact ⟨0, by simp [iter_cfr_err er src dst hs hd, CfrHandle.applyStep_zero]⟩
      | ok k => exact ⟨k, by simp [iter_cfr_ok k src dst hs hd]⟩
    · exact ⟨0, by simp [iter_copy_file_range, hs, hd, CfrHandle.applyStep_zero]⟩
  · exact ⟨0, by simp [iter_copy_file_range, hs, CfrHandle.applyStep_zero]⟩

theorem iter_sfp_state (e : StepResult) (dst : CfrHandle) :
    ∃ k, (iter_splice_from_pipe e dst).2 = dst.applyStep k := by
  by_cases hd : dst.role = Role.Writable
  · cases e with
    | err er => exact ⟨0, by simp [iter_sfp_err er dst hd, CfrHandle.applyStep_zero]⟩
    | ok k => exact ⟨k, by simp [iter_sfp_ok k dst hd]⟩
  · exact ⟨0, by simp [iter_splice_from_pipe, hd, CfrHandle.applyStep_zero]⟩

theorem iter_stp_state (e : StepResult) (src : CfrHandle) :
    ∃ k, (iter_splice_to_pipe e src).2 = src.applyStep k := by
  by_cases hs : src.role = Role.Readable
  · cases e with
    | err er => exact ⟨0, by simp [iter_stp_err er src hs, CfrHandle.applyStep_zero]⟩
    | ok k => exact ⟨k, by simp [iter_stp_ok k src hs]⟩
  · exact ⟨0, by simp [iter_splice_to_pipe, hs, CfrHandle.applyStep_zero]⟩

theorem sfp_inv (st : CfrHandle) (k : Nat) (hst : st.role = Role.Writable) :
    (st.applyStep k).role = Role.Writable :=
  (CfrHandle.applyStep_role st k).trans hst

theorem stp_inv (st : CfrHandle) (k : Nat) (hst : st.role = Role.Readable) :
    (st.applyStep k).role = Role.Readable :=
  (CfrHandle.applyStep_role st k).trans hst

/-! ## Claim theorems -/

/-- C1: every full-length driver (`copy_file_range`, `splice_from_pipe`,
`splice_to_pipe`) repeatedly invokes its matching single-step primitive with
the remaining length (the trace of `len` arguments is exactly the chain of
remainders), subtracts each step's bytes moved from the remaining count, and
returns `Ok(full_len)` when remaining reaches zero; as soon as a step returns
zero bytes it instead returns `Ok(full_len - remaining)` — the total moved so
far — as a successful short result, not an error. -/
theorem drivers_full_and_short (cs : List Nat) (hpos : ∀ c ∈ cs, 0 < c)
    (rest : List StepResult) (src dst : CfrHandle)
    (hsrc : src.role = Role.Readable) (hdst : dst.role = Role.Writable)
    (full_len d : Nat) (hd : 0 < d) :
    (cs.sum = full_len →
      copy_file_range (cs.map StepResult.ok ++ rest) full_len src dst =
        (.ok full_len, (src.applyStep full_len, dst.applyStep full_len),
          lensOf full_len cs) ∧
      splice_from_pipe (cs.map StepResult.ok ++ rest) full_len dst =
        (.ok full_len, dst.applyStep full_len, lensOf full_len cs) ∧
      splice_to_pipe (cs.map StepResult.ok ++ rest) full_len src =
        (.ok full_len, src.applyStep full_len, lensOf full_len cs)) ∧
    (cs.sum + d = full_len →
      copy_file_range (cs.map StepResult.ok ++ StepResult.ok 0 :: rest)
          full_len src dst =
        (.ok cs.sum, (src.applyStep cs.sum, dst.applyStep cs.sum),
          lensOf full_len cs ++ [d]) ∧
      splice_from_pipe (cs.map StepResult.ok ++ StepResult.ok 0 :: rest)
          full_len dst =
        (.ok cs.sum, dst.applyStep cs.sum, lensOf full_len cs ++ [d]) ∧
      splice_to_pipe (cs.map StepResult.ok ++ StepResult.ok 0 :: rest)
          full_len src =
        (.ok cs.sum, src.applyStep cs.sum, lensOf full_len cs ++ [d])) := by
  constructor
  · intro hfull
    subst hfull
    refine ⟨?_, ?_, ?_⟩
    · exact @drive_full (CfrHandle × CfrHandle)
        (fun e p => iter_copy_file_range e p.1 p.2)
        (fun p k => (p.1.applyStep k, p.2.applyStep k))
        (fun p => p.1.role = Role.Readable ∧ p.2.role = Role.Writable)
        cfr2_ok pair_inv pair_zero pair_add cs.sum cs hpos rest (src, dst)
        ⟨hsrc, hdst⟩
    · exact @drive_full CfrHandle iter_splice_from_pipe CfrHandle.applyStep
        (fun h => h.role = Role.Writable)
        iter_sfp_ok sfp_inv CfrHandle.applyStep_zero CfrHandle.applyStep_add
        cs.sum cs hpos rest dst hdst
    · exact @drive_full CfrHandle iter_splice_to_pipe CfrHandle.applyStep
        (fun h => h.role = Role.Readable)
        iter_stp_ok stp_inv CfrHandle.applyStep_zero CfrHandle.applyStep_add
        cs.sum cs hpos rest src hsrc
  · intro hshort
    subst hshort
    refine ⟨?_, ?_, ?_⟩
    · have h := @drive_short (CfrHandle × CfrHandle)
        (fun e p => iter_copy_file_range e p.1 p.2)
        (fun p k => (p.1.applyStep k, p.2.applyStep k))
        (fun p => p.1.role = Role.Readable ∧ p.2.role = Role.Writable)
        cfr2_ok pair_inv pair_add (cs.sum + d) cs hpos d hd rest (src, dst)
        ⟨hsrc, hdst⟩
      simpa [Nat.add_sub_cancel] using h
    · have h := @drive_short CfrHandle iter_splice_from_pipe CfrHandle.applyStep
        (fun h => h.role = Role.Writable)
        iter_sfp_ok sfp_inv CfrHandle.applyStep_add
        (cs.sum + d) cs hpos d hd rest dst hdst
      simpa [Nat.add_sub_cancel] using h
    · have h := @drive_short CfrHandle iter_splice_to_pipe CfrHandle.applyStep
        (fun h => h.role = Role.Readable)
        iter_stp_ok stp_inv CfrHandle.applyStep_add
        (cs.sum + d) cs hpos d hd rest src hsrc
      simpa [Nat.add_sub_cancel] using h

/-- Witness for C1: a two-step environment moving 2 then 1 byte completes a
request of 3 in full; a step of 2 followed by a zero step answers a request
of 4 with the short result 2. -/
theorem drivers_full_and_short_witness :
    copy_file_range [StepResult.ok 2, StepResult.ok 1] 3
        (.fromGivenOffset .Readable 0 0) (.mutateInnerOffset .Writable 0) =
      (.ok 3, (.fromGivenOffset .Readable 3 0, .mutateInnerOffset .Writable 3),
        [3, 1]) ∧
    copy_file_range [StepResult.ok 2, StepResult.ok 0] 4
        (.fromGivenOffset .Readable 0 0) (.mutateInnerOffset .Writable 0) =
      (.ok 2, (.fromGivenOffset .Readable 2 0, .mutateInnerOffset .Writable 2),
        [4, 2]) := by
  constructor
  · have h := ((drivers_full_and_short [2, 1] (by decide) []
      (.fromGivenOffset .Readable 0 0) (.mutateInnerOffset .Writable 0)
      rfl rfl 3 1 (by decide)).1 rfl).1
    simpa [CfrHandle.applyStep, lensOf] using h
  · have h := ((drivers_full_and_short [2] (by decide) []
      (.fromGivenOffset .Readable 0 0) (.mutateInnerOffset .Writable 0)
      rfl rfl 4 2 (by decide)).2 rfl).1
    simpa [CfrHandle.applyStep, lensOf] using h

/-- C2: when a single-step invocation returns a syscall error, every
full-length driver returns that error at once and unmodified; the outcome is
the bare error, never an `ok` count, so bytes already moved by earlier
iterations of the same call are not reported. -/
theorem drivers_error_aborts (cs : List Nat) (hpos : ∀ c ∈ cs, 0 < c)
    (d : Nat) (hd : 0 < d) (er : Int) (rest : List StepResult)
    (src dst : CfrHandle)
    (hsrc : src.role = Role.Readable) (hdst : dst.role = Role.Writable)
    (full_len : Nat) (hfl : cs.sum + d = full_len) :
    copy_file_range (cs.map StepResult.ok ++ StepResult.err er :: rest)
        full_len src dst =
      (.err er, (src.applyStep cs.sum, dst.applyStep cs.sum),
        lensOf full_len cs ++ [d]) ∧
    splice_from_pipe (cs.map StepResult.ok ++ StepResult.err er :: rest)
        full_len dst =
      (.err er, dst.applyStep cs.sum, lensOf full_len cs ++ [d]) ∧
    splice_to_pipe (cs.map StepResult.ok ++ StepResult.err er :: rest)
        full_len src =
      (.err er, src.applyStep cs.sum, lensOf full_len cs ++ [d]) ∧
    (∀ n, (LoopResult.err er : LoopResult) ≠ .ok n) := by
  subst hfl
  refine ⟨?_, ?_, ?_, fun n h => by cases h⟩
  · exact @drive_err (CfrHandle × CfrHandle)
      (fun e p => iter_copy_file_range e p.1 p.2)
      (fun p k => (p.1.applyStep k, p.2.applyStep k))
      (fun p => p.1.role = Role.Readable ∧ p.2.role = Role.Writable)
      cfr2_ok cfr2_err pair_inv pair_zero pair_add (cs.sum + d) cs hpos d hd
      er rest (src, dst) ⟨hsrc, hdst⟩
  · exact @drive_err CfrHandle iter_splice_from_pipe CfrHandle.applyStep
      (fun h => h.role = Role.Writable)
      iter_sfp_ok iter_sfp_err sfp_inv CfrHandle.applyStep_zero
      CfrHandle.applyStep_add (cs.sum + d) cs hpos d hd er rest dst hdst
  · exact @drive_err CfrHandle iter_splice_to_pipe CfrHandle.applyStep
      (fun h => h.role = Role.Readable)
      iter_stp_ok iter_stp_err stp_inv CfrHandle.applyStep_zero
      CfrHandle.applyStep_add (cs.sum + d) cs hpos d hd er rest src hsrc

/-- Witness for C2: after one 2-byte step, an error with errno 5 aborts a
request of 3 and is returned verbatim. -/
theorem drivers_error_aborts_witness :
    copy_file_range [StepResult.ok 2, StepResult.err 5] 3
        (.fromGivenOffset .Readable 0 0) (.mutateInnerOffset .Writable 0) =
      (.err 5, (.fromGivenOffset .Readable 2 0, .mutateInnerOffset .Writable 2),
        [3, 1]) := by
  have h := (drivers_error_aborts [2] (by decide) 1 (by decide) 5 []
    (.fromGivenOffset .Readable 0 0) (.mutateInnerOffset .Writable 0)
    rfl rfl 3 rfl).1
  simpa [CfrHandle.applyStep, lensOf] using h

/-- C7: a single-step result reporting more bytes than the remaining length
it was asked for trips the loop's defensive assertion in every driver: the
outcome is the assertion failure, which is neither a success count nor a
propagated error. -/
theorem drivers_overreport_panics (cs : List Nat) (hpos : ∀ c ∈ cs, 0 < c)
    (d c : Nat) (hd : 0 < d) (hdc : d < c) (rest : List StepResult)
    (src dst : CfrHandle)
    (hsrc : src.role = Role.Readable) (hdst : dst.role = Role.Writable)
    (full_len : Nat) (hfl : cs.sum + d = full_len) :
    copy_file_range (cs.map StepResult.ok ++ StepResult.ok c :: rest)
        full_len src dst =
      (.panic, (src.applyStep (cs.sum + c), dst.applyStep (cs.sum + c)),
        lensOf full_len cs ++ [d]) ∧
    splice_from_pipe (cs.map StepResult.ok ++ StepResult.ok c :: rest)
        full_len dst =
      (.panic, dst.applyStep (cs.sum + c), lensOf full_len cs ++ [d]) ∧
    splice_to_pipe (cs.map StepResult.ok ++ StepResult.ok c :: rest)
        full_len src =
      (.panic, src.applyStep (cs.sum + c), lensOf full_len cs ++ [d]) ∧
    (∀ n, (LoopResult.panic : LoopResult) ≠ .ok n) ∧
    (∀ e, (LoopResult.panic : LoopResult) ≠ .err e) := by
  subst hfl
  refine ⟨?_, ?_, ?_, ?_, ?_⟩
  · exact @drive_panic (CfrHandle × CfrHandle)
      (fun e p => iter_copy_file_range e p.1 p.2)
      (fun p k => (p.1.applyStep k, p.2.applyStep k))
      (fun p => p.1.role = Role.Readable ∧ p.2.role = Role.Writable)
      cfr2_ok pair_inv pair_add (cs.sum + d) cs hpos d c hd hdc rest
      (src, dst) ⟨hsrc, hdst⟩
  · exact @drive_panic CfrHandle iter_splice_from_pipe CfrHandle.applyStep
      (fun h => h.role = Role.Writable)
      iter_sfp_ok sfp_inv CfrHandle.applyStep_add
      (cs.sum + d) cs hpos d c hd hdc rest dst hdst
  · exact @drive_panic CfrHandle iter_splice_to_pipe CfrHandle.applyStep
      (fun h => h.role = Role.Readable)
      iter_stp_ok stp_inv CfrHandle.applyStep_add
      (cs.sum + d) cs hpos d c hd hdc rest src hsrc
  · intro n h
    cases h
  · intro e h
    cases h

/-- Witness for C7: a first step answering 5 bytes to a request of 3 drives
the loop into its assertion failure. -/
theorem drivers_overreport_panics_witness :
    copy_file_range [StepResult.ok 5] 3
        (.fromGivenOffset .Readable 0 0) (.mutateInnerOffset .Writable 0) =
      (.panic, (.fromGivenOffset .Readable 5 0, .mutateInnerOffset .Writable 5),
        [3]) := by
  have h := (drivers_overreport_panics [] (by simp) 3 5 (by decide) (by decide)
    [] (.fromGivenOffset .Readable 0 0) (.mutateInnerOffset .Writable 0)
    rfl rfl 3 rfl).1
  simpa [CfrHandle.applyStep, lensOf] using h

/-- C8: every full-length driver terminates: each iteration either returns
(on error, on a zero-progress step, on the assertion failure, or because
remaining reached zero) or strictly decreases the remaining length, so with
at least `full_len` step results available the loop always reaches an
outcome and never exhausts the environment. -/
theorem drivers_terminate (steps : List StepResult) (full_len : Nat)
    (src dst : CfrHandle) (h : full_len ≤ steps.length) :
    (copy_file_range steps full_len src dst).1 ≠ .pending ∧
    (splice_from_pipe steps full_len dst).1 ≠ .pending ∧
    (splice_to_pipe steps full_len src).1 ≠ .pending := by
  refine ⟨?_, ?_, ?_⟩
  · exact @drive_no_pending (CfrHandle × CfrHandle)
      (fun e p => iter_copy_file_range e p.1 p.2) full_len steps full_len
      (src, dst) h
  · exact @drive_no_pending CfrHandle iter_splice_from_pipe full_len steps
      full_len dst h
  · exact @drive_no_pending CfrHandle iter_splice_to_pipe full_len steps
      full_len src h

/-- C5: for every successful driver call that moves K bytes, each
`FromGivenOffset` endpoint's stored counter advances by exactly K while the
descriptor's own file position is unchanged (its `as_args` hands the syscall
a pointer to the counter), and each `MutateInnerOffset` endpoint's descriptor
file position advances by K (its `as_args` hands the syscall a null offset
pointer). -/
theorem drivers_offset_advance (steps : List StepResult) (full_len K : Nat)
    (src dst : CfrHandle)
    (hsrc : src.role = Role.Readable) (hdst : dst.role = Role.Writable) :
    ((copy_file_range steps full_len src dst).1 = .ok K →
      (copy_file_range steps full_len src dst).2.1 =
        (src.applyStep K, dst.applyStep K)) ∧
    ((splice_from_pipe steps full_len dst).1 = .ok K →
      (splice_from_pipe steps full_len dst).2.1 = dst.applyStep K) ∧
    ((splice_to_pipe steps full_len src).1 = .ok K →
      (splice_to_pipe steps full_len src).2.1 = src.applyStep K) ∧
    (∀ r (o p : Int), (CfrHandle.fromGivenOffset r o p).applyStep K =
      .fromGivenOffset r (o + K) p) ∧
    (∀ r (p : Int), (CfrHandle.mutateInnerOffset r p).applyStep K =
      .mutateInnerOffset r (p + K)) ∧
    (∀ r (o p : Int), (CfrHandle.fromGivenOffset r o p).offArg = some o) ∧
    (∀ r (p : Int), (CfrHandle.mutateInnerOffset r p).offArg = none) := by
  refine ⟨?_, ?_, ?_, fun r o p => rfl, fun r p => rfl,
    fun r o p => rfl, fun r p => rfl⟩
  · intro hK
    obtain ⟨m, hm1, _, hm3⟩ := @drive_ok_state (CfrHandle × CfrHandle)
      (fun e p => iter_copy_file_range e p.1 p.2)
      (fun p k => (p.1.applyStep k, p.2.applyStep k))
      (fun p => p.1.role = Role.Readable ∧ p.2.role = Role.Writable)
      cfr2_ok cfr2_err pair_inv pair_zero pair_add full_len steps full_len
      (src, dst) ⟨hsrc, hdst⟩ le_rfl K hK
    have hmK : m = K := by omega
    subst hmK
    exact hm3
  · intro hK
    obtain ⟨m, hm1, _, hm3⟩ := @drive_ok_state CfrHandle iter_splice_from_pipe
      CfrHandle.applyStep (fun h => h.role = Role.Writable)
      iter_sfp_ok iter_sfp_err sfp_inv CfrHandle.applyStep_zero
      CfrHandle.applyStep_add full_len steps full_len dst hdst le_rfl K hK
    have hmK : m = K := by omega
    subst hmK
    exact hm3
  · intro hK
    obtain ⟨m, hm1, _, hm3⟩ := @drive_ok_state CfrHandle iter_splice_to_pipe
      CfrHandle.applyStep (fun h => h.role = Role.Readable)
      iter_stp_ok iter_stp_err stp_inv CfrHandle.applyStep_zero
      CfrHandle.applyStep_add full_len steps full_len src hsrc le_rfl K hK
    have hmK : m = K := by omega
    subst hmK
    exact hm3

/-- Witness for C5: a successful 3-byte copy advances an explicit-offset
source counter from 10 to 13 with its file position untouched, and an
internal-offset destination file position from 7 to 10. -/
theorem drivers_offset_advance_witness :
    (copy_file_range [StepResult.ok 3] 3
        (.fromGivenOffset .Readable 10 0) (.mutateInnerOffset .Writable 7)).2.1 =
      (.fromGivenOffset .Readable 13 0, .mutateInnerOffset .Writable 10) := by
  have h := (drivers_offset_advance [StepResult.ok 3] 3 3
    (.fromGivenOffset .Readable 10 0) (.mutateInnerOffset .Writable 7)
    rfl rfl).1 (by decide)
  simpa [CfrHandle.applyStep] using h

/-- C6: a `FromGivenOffset` counter is nonnegative at construction (the
initial value is an unsigned 32-bit quantity widened to the signed counter),
and across every driver call — whatever its outcome — the endpoint state is
the initial state advanced by the total bytes of the completed syscalls, so
the counter only grows by observed syscall results, stays nonnegative, and
nothing else mutates it. -/
theorem offset_counter_invariant :
    (∀ (fd : Int) (st_mode flags : Nat) (role : Role) (init : Nat)
      (filePos : Int) (h : CfrHandle),
      FromGivenOffset.new fd st_mode flags role init filePos = .ok h →
      ∃ o, h = .fromGivenOffset role o filePos ∧ 0 ≤ o) ∧
    (∀ (steps : List StepResult) (full_len : Nat) (src dst : CfrHandle),
      ∃ m, (copy_file_range steps full_len src dst).2.1 =
        (src.applyStep m, dst.applyStep m)) ∧
    (∀ (steps : List StepResult) (full_len : Nat) (dst : CfrHandle),
      ∃ m, (splice_from_pipe steps full_len dst).2.1 = dst.applyStep m) ∧
    (∀ (steps : List StepResult) (full_len : Nat) (src : CfrHandle),
      ∃ m, (splice_to_pipe steps full_len src).2.1 = src.applyStep m) ∧
    (∀ (r : Role) (o p : Int) (k : Nat), 0 ≤ o →
      ∃ o2, (CfrHandle.fromGivenOffset r o p).applyStep k =
        .fromGivenOffset r o2 p ∧ 0 ≤ o2 ∧ o ≤ o2) := by
  refine ⟨?_, ?_, ?_, ?_, ?_⟩
  · intro fd st_mode flags role init filePos h hnew
    unfold FromGivenOffset.new at hnew
    cases hv : validate_raw_fd fd st_mode flags role with
    | error e => rw [hv] at hnew; cases hnew
    | ok v =>
      rw [hv] at hnew
      cases hnew
      exact ⟨((init % 2 ^ 32 : Nat) : Int), rfl, Int.natCast_nonneg _⟩
  · intro steps full_len src dst
    exact @drive_state (CfrHandle × CfrHandle)
      (fun e p => iter_copy_file_range e p.1 p.2)
      (fun p k => (p.1.applyStep k, p.2.applyStep k))
      (fun e st => iter_cfr_state e st.1 st.2) pair_zero pair_add
      full_len steps full_len (src, dst)
  · intro steps full_len dst
    exact @drive_state CfrHandle iter_splice_from_pipe CfrHandle.applyStep
      iter_sfp_state CfrHandle.applyStep_zero CfrHandle.applyStep_add
      full_len steps full_len dst
  · intro steps full_len src
    exact @drive_state CfrHandle iter_splice_to_pipe CfrHandle.applyStep
      iter_stp_state CfrHandle.applyStep_zero CfrHandle.applyStep_add
      full_len steps full_len src
  · intro r o p k ho
    exact ⟨o + k, rfl, by omega, by omega⟩

/-- Witness for C6: constructing a readable explicit-offset handle over a
regular read-only file with initial offset 5 yields a nonnegative stored
counter. -/
theorem offset_counter_invariant_witness :
    ∃ o, (CfrHandle.fromGivenOffset Role.Readable 5 0 : CfrHandle) =
      .fromGivenOffset Role.Readable o 0 ∧ 0 ≤ o :=
  offset_counter_invariant.1 1 32768 0 Role.Readable 5 0
    (.fromGivenOffset Role.Readable 5 0) (by rfl)

/-- Witness for C8: with two step results available, a request of length 2
reaches an outcome in every driver. -/
theorem drivers_terminate_witness :
    (copy_file_range [StepResult.ok 1, StepResult.ok 1] 2
        (.fromGivenOffset .Readable 0 0) (.mutateInnerOffset .Writable 0)).1 ≠
      LoopResult.pending :=
  (drivers_terminate [StepResult.ok 1, StepResult.ok 1] 2
    (.fromGivenOffset .Readable 0 0) (.mutateInnerOffset .Writable 0)
    (by decide)).1

theorem iter_cfr_panic (e : StepResult) (src dst : CfrHandle)
    (h : src.role ≠ Role.Readable ∨ dst.role ≠ Role.Writable) :
    iter_copy_file_range e src dst = (.panic, src, dst) := by
  by_cases hs : src.role = Role.Readable
  · have hd : dst.role ≠ Role.Writable := h.resolve_left fun hn => hn hs
    simp [iter_copy_file_range, hs, hd]
  · simp [iter_copy_file_range, hs]

/-- C9 is refuted at requested length zero: `copy_file_range` called with a
source strategy whose role is Writable (not Readable) and `full_len = 0`
returns `Ok(0)` without ever reaching a role assertion, because the loop body
never runs; no panic occurs. -/
theorem role_assert_zero_len_counterexample :
    copy_file_range [] 0 (.mutateInnerOffset Role.Writable 0)
        (.mutateInnerOffset Role.Writable 0) =
      (.ok 0, (.mutateInnerOffset Role.Writable 0,
        .mutateInnerOffset Role.Writable 0), []) ∧
    (copy_file_range [] 0 (.mutateInnerOffset Role.Writable 0)
        (.mutateInnerOffset Role.Writable 0)).1 ≠ LoopResult.panic := by
  constructor
  · rfl
  · intro h
    cases h

/-- C9 (amended): calling a single-step primitive with a source strategy
whose role is not Readable, or a destination strategy whose role is not
Writable, fails the runtime role assertion before any syscall is attempted
(the outcome is a panic, independent of the would-be syscall result, with the
endpoint state unchanged); a looping driver behaves the same whenever the
requested length is positive — with length zero the loop body never runs and
the call returns `Ok(0)`. -/
theorem role_assert_panics (e : StepResult) (rest : List StepResult)
    (src dst : CfrHandle) (full_len : Nat) (hlen : 0 < full_len) :
    (src.role ≠ Role.Readable ∨ dst.role ≠ Role.Writable →
      iter_copy_file_range e src dst = (.panic, src, dst) ∧
      copy_file_range (e :: rest) full_len src dst =
        (.panic, (src, dst), [full_len])) ∧
    (dst.role ≠ Role.Writable →
      iter_splice_from_pipe e dst = (.panic, dst) ∧
      splice_from_pipe (e :: rest) full_len dst = (.panic, dst, [full_len])) ∧
    (src.role ≠ Role.Readable →
      iter_splice_to_pipe e src = (.panic, src) ∧
      splice_to_pipe (e :: rest) full_len src = (.panic, src, [full_len])) := by
  refine ⟨?_, ?_, ?_⟩
  · intro h
    have hi := iter_cfr_panic e src dst h
    exact ⟨hi, drive_first_panic full_len hlen e rest (src, dst) (src, dst) hi⟩
  · intro h
    have hi : iter_splice_from_pipe e dst = (.panic, dst) := by
      simp [iter_splice_from_pipe, h]
    exact ⟨hi, drive_first_panic full_len hlen e rest dst dst hi⟩
  · intro h
    have hi : iter_splice_to_pipe e src = (.panic, src) := by
      simp [iter_splice_to_pipe, h]
    exact ⟨hi, drive_first_panic full_len hlen e rest src src hi⟩

/-- Witness for the amended C9: a write-only handle used as the source of a
one-byte copy trips the role assertion in the single-step primitive and in
the looping driver. -/
theorem role_assert_panics_witness :
    iter_copy_file_range (StepResult.ok 1) (.mutateInnerOffset Role.Writable 0)
        (.mutateInnerOffset Role.Writable 0) =
      (.panic, .mutateInnerOffset Role.Writable 0,
        .mutateInnerOffset Role.Writable 0) ∧
    copy_file_range [StepResult.ok 1] 1 (.mutateInnerOffset Role.Writable 0)
        (.mutateInnerOffset Role.Writable 0) =
      (.panic, (.mutateInnerOffset Role.Writable 0,
        .mutateInnerOffset Role.Writable 0), [1]) :=
  (role_assert_panics (.ok 1) [] (.mutateInnerOffset Role.Writable 0)
    (.mutateInnerOffset Role.Writable 0) 1 (by decide)).1
    (Or.inl (by decide))

/-- C3: on a descriptor whose metadata and status-flag queries succeed,
`validate_raw_fd` returns the descriptor exactly when it references a regular
file, its access-mode bits lie in the role's allowed set (Readable: read-only
or read-write; Writable: write-only or read-write), and, for a Writable
role, the append flag is clear; otherwise it fails with NotRegularFile,
WrongAccessMode, or AppendNotAllowed, checked in that order — all before any
transfer syscall, since validation gates handle construction. -/
theorem validate_raw_fd_spec (fd : Int) (st_mode flags : Nat) (role : Role) :
    (validate_raw_fd fd st_mode flags role = .ok fd ↔
      st_mode &&& S_IFMT = S_IFREG ∧
      (flags &&& O_ACCMODE) ∈ role.allowed_modes ∧
      (role = Role.Writable → flags &&& O_APPEND = 0)) ∧
    (st_mode &&& S_IFMT ≠ S_IFREG →
      validate_raw_fd fd st_mode flags role = .error .NotRegularFile) ∧
    (st_mode &&& S_IFMT = S_IFREG →
      (flags &&& O_ACCMODE) ∉ role.allowed_modes →
      validate_raw_fd fd st_mode flags role = .error .WrongAccessMode) ∧
    (st_mode &&& S_IFMT = S_IFREG →
      (flags &&& O_ACCMODE) ∈ role.allowed_modes →
      role = Role.Writable → flags &&& O_APPEND ≠ 0 →
      validate_raw_fd fd st_mode flags role = .error .AppendNotAllowed) ∧
    Role.Readable.allowed_modes = [O_RDONLY, O_RDWR] ∧
    Role.Writable.allowed_modes = [O_WRONLY, O_RDWR] := by
  cases role <;>
    simp [validate_raw_fd, check_regular_file, Role.validate_flags,
      Role.check_append, Role.allowed_modes, Except.bind, bind, pure,
      Except.pure] <;>
    split_ifs <;>
    (try simp_all) <;>
    tauto

/-- Witness for C3: a regular file (mode bits S_IFREG) opened read-write
without append validates for the Writable role. -/
theorem validate_raw_fd_spec_witness :
    validate_raw_fd 4 33188 2 Role.Writable = .ok 4 :=
  ((validate_raw_fd_spec 4 33188 2 Role.Writable).1).mpr
    ⟨by decide, by decide, fun _ => by decide⟩

/-- C4: on Linux the probe issues one `copy_file_range` with the two invalid
sentinel descriptors and length 1, reports Available exactly when the
resulting errno is EBADF, and reports FailedProbe carrying the errno
otherwise (including "not implemented"); off Linux it reports
NotOnThisPlatform for every kernel behaviour, i.e. without consulting the
sentinel call. -/
theorem probe_availability (kernelErrno : CfrCall → Int) :
    (has_copy_file_range true kernelErrno = .Available ↔
      invalid_copy_file_range kernelErrno = EBADF) ∧
    (invalid_copy_file_range kernelErrno ≠ EBADF →
      has_copy_file_range true kernelErrno =
        .FailedProbe (invalid_copy_file_range kernelErrno)) ∧
    invalid_copy_file_range kernelErrno =
      kernelErrno ⟨INVALID_FD, INVALID_FD, 1, 0⟩ ∧
    has_copy_file_range false kernelErrno = .NotOnThisPlatform := by
  by_cases he : invalid_copy_file_range kernelErrno = EBADF <;>
    simp [has_copy_file_range, he, invalid_copy_file_range]

/-- Witness for C4: a kernel answering the sentinel call with ENOSYS (38)
yields FailedProbe 38; one answering EBADF (9) yields Available. -/
theorem probe_availability_witness :
    has_copy_file_range true (fun _ => 38) = .FailedProbe 38 ∧
    has_copy_file_range true (fun _ => 9) = .Available :=
  ⟨(probe_availability (fun _ => 38)).2.1 (by decide),
    (probe_availability (fun _ => 9)).1.mpr (by decide)⟩

/-- C10: `FromGivenOffset` construction takes the initial offset as an
unsigned 32-bit value widened to the signed 64-bit counter, so every
successfully constructed value has its counter in [0, 2^32); when the given
initial value already fits in 32 bits the counter equals it. -/
theorem from_given_offset_range (fd : Int) (st_mode flags : Nat) (role : Role)
    (init : Nat) (filePos : Int) (h : CfrHandle)
    (hnew : FromGivenOffset.new fd st_mode flags role init filePos = .ok h) :
    ∃ o, h = .fromGivenOffset role o filePos ∧ 0 ≤ o ∧ o < 2 ^ 32 ∧
      (init < 2 ^ 32 → o = (init : Int)) := by
  unfold FromGivenOffset.new at hnew
  cases hv : validate_raw_fd fd st_mode flags role with
  | error e => rw [hv] at hnew; cases hnew
  | ok v =>
    rw [hv] at hnew
    cases hnew
    refine ⟨((init % 2 ^ 32 : Nat) : Int), rfl, Int.natCast_nonneg _, ?_, ?_⟩
    · exact_mod_cast Nat.mod_lt init (by norm_num)
    · intro hlt
      exact_mod_cast Nat.mod_eq_of_lt hlt

/-- Witness for C10: constructing with initial offset 7 over a regular
read-only file stores the counter 7, inside [0, 2^32). -/
theorem from_given_offset_range_witness :
    ∃ o, (CfrHandle.fromGivenOffset Role.Readable 7 0 : CfrHandle) =
      .fromGivenOffset Role.Readable o 0 ∧ 0 ≤ o ∧ o < 2 ^ 32 ∧
      ((7 : Nat) < 2 ^ 32 → o = ((7 : Nat) : Int)) :=
  from_given_offset_range 1 32768 0 Role.Readable 7 0
    (.fromGivenOffset Role.Readable 7 0) (by rfl)

end ZeroCopy
